import Mathlib

/-!
Verification of the FastFileSearch core against its specification.

Each definition below is a shallow embedding of one C++ function of the
repository; the source file and lines are cited on the definition.
Machine integers (`size_t`, `uint32_t`, `uint64_t`) are modelled as `Nat`
(none of the verified code paths can overflow or wrap), C++ `double`
values that are only compared are modelled as `ℚ`, and `std::string` as
Lean `String` (the code manipulates bytes; all verified paths are
byte-per-character).
-/

namespace FastFileSearch

/-! ## FileEntry and updateTokens (src/src/core/types.cpp, lines 69-102) -/

/-- One character step of the normalization loop in
`FileEntry::updateTokens` (types.cpp lines 79-85): alphanumerics are
lowercased and kept, each of `.`, `_`, `-` and space contributes one
space, every other character contributes nothing. -/
def normalizeChars : List Char → List Char
  | [] => []
  | c :: cs =>
    if c.isAlphanum then c.toLower :: normalizeChars cs
    else if c = '.' || c = '_' || c = '-' || c = ' ' then ' ' :: normalizeChars cs
    else normalizeChars cs

/-- `::tolower` applied characterwise (types.cpp line 99). -/
def lowerString (s : String) : String :=
  ⟨s.toList.map Char.toLower⟩

/-- The fields of `FileEntry` (include/core/types.h lines 66-96) used by
the claims. -/
structure FileEntry where
  id : Nat := 0
  fileName : String := ""
  extension : String := ""
  normalizedName : String := ""
  tokens : List String := []
  size : Nat := 0
  lastModified : Int := 0
  deriving DecidableEq, Repr

/-- `FileEntry::updateTokens` (types.cpp lines 69-102): clears both
fields, returns at once on an empty file name, otherwise normalizes the
name, splits it on spaces into non-empty tokens (`std::istringstream`
extraction), and appends the lowercased extension as a token when
present. -/
def FileEntry.updateTokens (e : FileEntry) : FileEntry :=
  if e.fileName = "" then
    { e with tokens := [], normalizedName := "" }
  else
    let nn : String := ⟨normalizeChars e.fileName.toList⟩
    let toks := (nn.split (· = ' ')).filter (· ≠ "") ++
      (if e.extension ≠ "" then [lowerString e.extension] else [])
    { e with normalizedName := nn, tokens := toks }

/-- The claim's reading of the normalization: runs of the separator
characters collapse, so the normalized name never contains two
consecutive spaces. -/
def noDoubleSpace (s : String) : Prop :=
  ¬ ([' ', ' '] <:+: s.toList)

/-- Per-character normalization as the specification words it, used to
characterize what the code computes: keep lowercased alphanumerics, map
each separator to one space, drop the rest. -/
def specNormChar (c : Char) : Option Char :=
  if c.isAlphanum then some c.toLower
  else if c = '.' || c = '_' || c = '-' || c = ' ' then some ' '
  else none

theorem normalizeChars_eq_filterMap (cs : List Char) :
    normalizeChars cs = cs.filterMap specNormChar := by
  induction cs with
  | nil => rfl
  | cons c cs ih =>
    by_cases h1 : c.isAlphanum
    · simp [normalizeChars, specNormChar, h1, ih]
    · by_cases h2 : (c = '.' || c = '_' || c = '-' || c = ' ') = true
      · simp [normalizeChars, specNormChar, h1, h2, ih]
      · simp [normalizeChars, specNormChar, h1, h2, ih]

/-- Claim C1, counterexample: on the file name `"a..b"` the code produces
`"a  b"`, which contains two consecutive spaces, so runs of separators
are not collapsed to a single space. -/
theorem C1_counterexample :
    ({ fileName := "a..b" : FileEntry }.updateTokens.normalizedName = "a  b") ∧
    ¬ noDoubleSpace ({ fileName := "a..b" : FileEntry }.updateTokens.normalizedName) := by
  constructor
  · rfl
  · intro h
    exact h (by decide)

/-- Claim C1 (amended): after `updateTokens()` the `normalized_name`
equals the file name mapped characterwise — alphanumerics lowercased and
kept, each occurrence of `.`, `_`, `-` or space replaced by one space,
every other character dropped — so consecutive separator characters
yield consecutive spaces rather than collapsing. -/
theorem C1_updateTokens_normalizedName (e : FileEntry) :
    e.updateTokens.normalizedName = ⟨e.fileName.toList.filterMap specNormChar⟩ := by
  unfold FileEntry.updateTokens
  by_cases h : e.fileName = ""
  · rw [if_pos h, h]; rfl
  · rw [if_neg h]
    show (⟨normalizeChars e.fileName.toList⟩ : String) = _
    rw [normalizeChars_eq_filterMap]

/-! ## SearchQuery::isValid (src/src/core/types.cpp, lines 105-119) -/

/-- The fields of `SearchQuery` (include/core/types.h lines 98-116) used
by `isValid`; `fuzzyThreshold` is a C++ `double`, modelled as `ℚ`. -/
structure SearchQuery where
  query : String := ""
  maxResults : Nat := 1000
  caseSensitive : Bool := false
  fuzzyThreshold : ℚ := 6/10
  deriving DecidableEq, Repr

/-- `SearchQuery::isValid` (types.cpp lines 105-119): reject an empty
query text, a zero `maxResults`, or a fuzzy threshold outside `[0, 1]`;
accept everything else. -/
def SearchQuery.isValid (q : SearchQuery) : Bool :=
  if q.query = "" then false
  else if q.maxResults = 0 then false
  else if q.fuzzyThreshold < 0 ∨ q.fuzzyThreshold > 1 then false
  else true

/-- Claim C5: `isValid` returns false exactly when the query text is
empty, `max_results` is 0, or the fuzzy threshold lies outside `[0, 1]`;
it is a pure predicate, so an empty query is rejected with no state
change. -/
theorem C5_isValid_iff (q : SearchQuery) :
    q.isValid = false ↔
      (q.query = "" ∨ q.maxResults = 0 ∨ q.fuzzyThreshold < 0 ∨ 1 < q.fuzzyThreshold) := by
  unfold SearchQuery.isValid
  by_cases h1 : q.query = "" <;>
    by_cases h2 : q.maxResults = 0 <;>
      by_cases h3 : q.fuzzyThreshold < 0 <;>
        by_cases h4 : 1 < q.fuzzyThreshold <;>
          simp_all

/-! ## AppSettings::sanitize and ::validate (src/src/core/types.cpp, lines 266-308) -/

/-- The fields of `AppSettings` (include/core/types.h lines 177-212)
read by `validate` and written by `sanitize`. The `uint32_t` fields are
modelled as `Nat`, the `double` threshold as `ℚ`. -/
structure AppSettings where
  includeDrives : List String := []
  excludePaths : List String := []
  excludeExtensions : List String := []
  maxSearchResults : Nat := 1000
  fuzzyThreshold : ℚ := 6/10
  indexingThreads : Nat := 4
  maxMemoryUsage : Nat := 512
  cacheSize : Nat := 100
  deriving DecidableEq, Repr

/-- `AppSettings::validate` (types.cpp lines 266-288). -/
def AppSettings.validate (s : AppSettings) : Bool :=
  if s.indexingThreads = 0 ∨ s.indexingThreads > 32 then false
  else if s.maxMemoryUsage < 64 ∨ s.maxMemoryUsage > 8192 then false
  else if s.cacheSize > s.maxMemoryUsage then false
  else if s.fuzzyThreshold < 0 ∨ s.fuzzyThreshold > 1 then false
  else if s.maxSearchResults = 0 ∨ s.maxSearchResults > 100000 then false
  else true

/-- `AppSettings::sanitize` (types.cpp lines 290-308): clamp the numeric
fields in source order (`cacheSize` is clamped against the already
clamped `maxMemoryUsage`) and drop empty strings from the three string
vectors. -/
def AppSettings.sanitize (s : AppSettings) : AppSettings :=
  let it := max 1 (min 32 s.indexingThreads)
  let mm := max 64 (min 8192 s.maxMemoryUsage)
  let cs := max 10 (min mm s.cacheSize)
  let ft := max 0 (min 1 s.fuzzyThreshold)
  let ms := max 1 (min 100000 s.maxSearchResults)
  { s with
    indexingThreads := it
    maxMemoryUsage := mm
    cacheSize := cs
    fuzzyThreshold := ft
    maxSearchResults := ms
    includeDrives := s.includeDrives.filter (· ≠ "")
    excludePaths := s.excludePaths.filter (· ≠ "")
    excludeExtensions := s.excludeExtensions.filter (· ≠ "") }

/-- Claim C9: `sanitize()` clamps every field into the range `validate()`
accepts — threads into `[1, 32]`, memory into `[64, 8192]` MB, cache size
into `[10, maxMemoryUsage]`, threshold into `[0, 1]`, result cap into
`[1, 100000]` — so `validate` holds after `sanitize` on every settings
value. -/
theorem C9_sanitize_validate (s : AppSettings) :
    s.sanitize.validate = true := by
  have e1 : s.sanitize.indexingThreads = max 1 (min 32 s.indexingThreads) := rfl
  have e2 : s.sanitize.maxMemoryUsage = max 64 (min 8192 s.maxMemoryUsage) := rfl
  have e3 : s.sanitize.cacheSize =
      max 10 (min (max 64 (min 8192 s.maxMemoryUsage)) s.cacheSize) := rfl
  have e4 : s.sanitize.fuzzyThreshold = max 0 (min 1 s.fuzzyThreshold) := rfl
  have e5 : s.sanitize.maxSearchResults = max 1 (min 100000 s.maxSearchResults) := rfl
  have h1 : 1 ≤ max 1 (min 32 s.indexingThreads) := le_max_left _ _
  have h2 : max 1 (min 32 s.indexingThreads) ≤ 32 :=
    max_le (by norm_num) (min_le_left _ _)
  have h3 : 64 ≤ max 64 (min 8192 s.maxMemoryUsage) := le_max_left _ _
  have h4 : max 64 (min 8192 s.maxMemoryUsage) ≤ 8192 :=
    max_le (by norm_num) (min_le_left _ _)
  have h5 : max 10 (min (max 64 (min 8192 s.maxMemoryUsage)) s.cacheSize) ≤
      max 64 (min 8192 s.maxMemoryUsage) :=
    max_le (le_trans (by norm_num) h3) (min_le_left _ _)
  have h6 : (0 : ℚ) ≤ max 0 (min 1 s.fuzzyThreshold) := le_max_left _ _
  have h7 : max 0 (min 1 s.fuzzyThreshold) ≤ 1 :=
    max_le (by norm_num) (min_le_left _ _)
  have h8 : 1 ≤ max 1 (min 100000 s.maxSearchResults) := le_max_left _ _
  have h9 : max 1 (min 100000 s.maxSearchResults) ≤ 100000 :=
    max_le (by norm_num) (min_le_left _ _)
  unfold AppSettings.validate
  rw [e1, e2, e3, e4, e5]
  rw [if_neg (by push_neg; exact ⟨by omega, h2⟩),
    if_neg (by push_neg; exact ⟨h3, h4⟩),
    if_neg (not_lt.mpr h5),
    if_neg (by push_neg; exact ⟨h6, h7⟩),
    if_neg (by push_neg; exact ⟨by omega, h9⟩)]

/-! ## ThreadSafeQueue (src/include/utils/thread_safe_queue.h)

The queue protects its state with a mutex, so each method is an atomic
step on the state `(items, shutdownFlag)`; we model the methods as pure
state transformers. C++ `void` returns are modelled as `Unit`. -/

/-- The state of `ThreadSafeQueue<T>` (thread_safe_queue.h lines 13-20):
the underlying `std::queue` (front = head of the list) and the atomic
`shutdown_` flag. -/
structure ThreadSafeQueue (α : Type) where
  items : List α := []
  shutdownFlag : Bool := false
  deriving DecidableEq, Repr

/-- `ThreadSafeQueue::push` (thread_safe_queue.h lines 52-60): if the
shutdown flag is set, return at once without touching the queue;
otherwise enqueue at the back. The C++ function returns `void`, modelled
as the `Unit` component of the result. -/
def ThreadSafeQueue.push {α : Type} (q : ThreadSafeQueue α) (item : α) :
    ThreadSafeQueue α × Unit :=
  if q.shutdownFlag then (q, ())
  else ({ q with items := q.items ++ [item] }, ())

/-- `ThreadSafeQueue::pop` (thread_safe_queue.h lines 85-99 and the
`shared_ptr` overload, lines 133-147): wait while the queue is empty and
not shut down (in a quiescent state this never returns, modelled by the
outer `none`); after the wait, report failure when shut down and empty,
otherwise dequeue the front item. -/
def ThreadSafeQueue.pop {α : Type} (q : ThreadSafeQueue α) :
    Option (Option α × ThreadSafeQueue α) :=
  match q.items, q.shutdownFlag with
  | [], false => none
  | [], true => some (none, q)
  | x :: xs, _ => some (some x, { q with items := xs })

/-- `ThreadSafeQueue::shutdown` (thread_safe_queue.h lines 182-185). -/
def ThreadSafeQueue.shutdown {α : Type} (q : ThreadSafeQueue α) : ThreadSafeQueue α :=
  { q with shutdownFlag := true }

/-- `ThreadSafeQueue::restart` (thread_safe_queue.h lines 193-195). -/
def ThreadSafeQueue.restart {α : Type} (q : ThreadSafeQueue α) : ThreadSafeQueue α :=
  { q with shutdownFlag := false }

/-- Claim C2: on a shut-down queue, `pop` returns the no-item result
exactly when the queue is empty; whenever items remain queued, `pop`
returns the front item, so queued items drain first. -/
theorem C2_pop_drains_after_shutdown {α : Type} (q : ThreadSafeQueue α)
    (h : q.shutdownFlag = true) :
    (q.pop = some (none, q) ↔ q.items = []) ∧
    (∀ x xs, q.items = x :: xs → q.pop = some (some x, { q with items := xs })) := by
  obtain ⟨items, flag⟩ := q
  simp only at h
  subst h
  cases items with
  | nil => simp [ThreadSafeQueue.pop]
  | cons x xs =>
    refine ⟨?_, ?_⟩
    · simp [ThreadSafeQueue.pop]
    · intro y ys hy
      obtain ⟨rfl, rfl⟩ : y = x ∧ ys = xs := by
        constructor <;> injection hy <;> simp_all
      rfl

/-- Concrete instance of C2: on the shut-down queue holding `[5, 6]`,
`pop` does not report emptiness and returns the front item `5`. -/
theorem C2_pop_drains_after_shutdown_witness :
    ((ThreadSafeQueue.mk [5, 6] true : ThreadSafeQueue Nat).pop =
        some (none, ThreadSafeQueue.mk [5, 6] true) ↔
      (ThreadSafeQueue.mk [5, 6] true : ThreadSafeQueue Nat).items = []) ∧
    (∀ x xs, (ThreadSafeQueue.mk [5, 6] true : ThreadSafeQueue Nat).items = x :: xs →
      (ThreadSafeQueue.mk [5, 6] true : ThreadSafeQueue Nat).pop =
        some (some x, { ThreadSafeQueue.mk [5, 6] true with items := xs })) :=
  C2_pop_drains_after_shutdown (ThreadSafeQueue.mk [5, 6] true) rfl

/-- Claim C7, counterexample: `push` returns `void`. On a shut-down
queue the caller receives exactly the same return value (the unit) as
from a successful push on a live queue — even though the two calls
differ observably in their effect on the queue — so the rejection is not
reported to the caller and no `false` is returned. -/
theorem C7_counterexample :
    ((ThreadSafeQueue.mk [] true : ThreadSafeQueue Nat).push 7).2 =
      ((ThreadSafeQueue.mk [] false : ThreadSafeQueue Nat).push 7).2 ∧
    ((ThreadSafeQueue.mk [] true : ThreadSafeQueue Nat).push 7).1 =
      ThreadSafeQueue.mk [] true ∧
    ((ThreadSafeQueue.mk [] false : ThreadSafeQueue Nat).push 7).1 ≠
      ThreadSafeQueue.mk [] false := by
  refine ⟨rfl, rfl, ?_⟩
  decide

/-- Claim C7 (amended): on a queue whose shutdown flag is set and not
cleared by `restart`, `push(v)` is a silent no-op — the queue contents
are unchanged and, `push` returning `void`, nothing is reported to the
caller. -/
theorem C7_push_shutdown_noop {α : Type} (q : ThreadSafeQueue α) (v : α)
    (h : q.shutdownFlag = true) :
    q.push v = (q, ()) := by
  unfold ThreadSafeQueue.push
  rw [if_pos h]

/-- Concrete instance of the amended C7: pushing 7 on a shut-down queue
holding `[1, 2]` leaves the state unchanged. -/
theorem C7_push_shutdown_noop_witness :
    (ThreadSafeQueue.mk [1, 2] true : ThreadSafeQueue Nat).push 7 =
      (ThreadSafeQueue.mk [1, 2] true, ()) :=
  C7_push_shutdown_noop (ThreadSafeQueue.mk [1, 2] true) 7 rfl

/-! ## LRUCache (src/include/storage/cache_manager.h, lines 15-225)

The C++ class keeps a doubly linked `nodeList_` (front = most recently
used, back = least recently used) plus a `hashMap_` from key to node.
The hash map is exactly the association view of the list, so the state
is modelled by the list together with the scalar fields. Every public
method locks the single mutex, so each is an atomic state transformer. -/

/-- State of `LRUCache<Key, Value>` (cache_manager.h lines 31-40):
`nodeList` front-to-back (MRU first), plus `capacity_`, `currentSize_`
and the statistics counters. -/
structure LRUCache (κ ν : Type) where
  nodeList : List (κ × ν) := []
  capacity : Nat
  currentSize : Nat := 0
  hitCount : Nat := 0
  missCount : Nat := 0
  evictionCount : Nat := 0
  deriving DecidableEq, Repr

/-- The `LRUCache` constructor (cache_manager.h lines 43-48): a requested
capacity of 0 is coerced to 1. -/
def LRUCache.make {κ ν : Type} (capacity : Nat) : LRUCache κ ν :=
  { nodeList := [], capacity := if capacity = 0 then 1 else capacity }

/-- `LRUCache::evictLRU` (cache_manager.h lines 216-224): when the list
is non-empty, erase the back node (least recently used), decrement the
size and increment the eviction counter. -/
def LRUCache.evictLRU {κ ν : Type} (c : LRUCache κ ν) : LRUCache κ ν :=
  if c.nodeList.isEmpty then c
  else { c with
    nodeList := c.nodeList.dropLast
    currentSize := c.currentSize - 1
    evictionCount := c.evictionCount + 1 }

/-- `LRUCache::put` (cache_manager.h lines 69-88): if the key is mapped,
overwrite the node's value and splice it to the front; otherwise evict
the LRU entry when `currentSize_ >= capacity_`, then push the new node
at the front and increment the size. -/
def LRUCache.put {κ ν : Type} [DecidableEq κ] (c : LRUCache κ ν) (key : κ) (value : ν) :
    LRUCache κ ν :=
  if (c.nodeList.find? (fun p => decide (p.1 = key))).isSome then
    { c with nodeList := (key, value) :: c.nodeList.eraseP (fun p => decide (p.1 = key)) }
  else
    let c1 := if c.currentSize ≥ c.capacity then c.evictLRU else c
    { c1 with
      nodeList := (key, value) :: c1.nodeList
      currentSize := c1.currentSize + 1 }

/-- `LRUCache::get` (cache_manager.h lines 91-105): on a hit, splice the
node to the front, count a hit and return a copy of the value; on a miss
count a miss. -/
def LRUCache.get {κ ν : Type} [DecidableEq κ] (c : LRUCache κ ν) (key : κ) :
    Option ν × LRUCache κ ν :=
  match c.nodeList.find? (fun p => decide (p.1 = key)) with
  | some p =>
      (some p.2,
        { c with
          nodeList := p :: c.nodeList.eraseP (fun q => decide (q.1 = key))
          hitCount := c.hitCount + 1 })
  | none => (none, { c with missCount := c.missCount + 1 })

/-- `LRUCache::remove` (cache_manager.h lines 130-142). -/
def LRUCache.remove {κ ν : Type} [DecidableEq κ] (c : LRUCache κ ν) (key : κ) :
    Bool × LRUCache κ ν :=
  if (c.nodeList.find? (fun p => decide (p.1 = key))).isSome then
    (true,
      { c with
        nodeList := c.nodeList.eraseP (fun p => decide (p.1 = key))
        currentSize := c.currentSize - 1 })
  else (false, c)

/-- `LRUCache::clear` (cache_manager.h lines 145-150): empties the list
and the map and zeroes the size; the statistics are kept. -/
def LRUCache.clear {κ ν : Type} (c : LRUCache κ ν) : LRUCache κ ν :=
  { c with nodeList := [], currentSize := 0 }

/-- The `while (currentSize_ > capacity_) evictLRU();` loop of
`LRUCache::resize` (cache_manager.h lines 174-176). The loop guard also
carries the non-emptiness of the list, which `evictLRU` itself checks:
in a state with `currentSize_ > capacity_` and an empty list the C++
loop would spin forever, and such states are unreachable (the size
always equals the list length, proved below). -/
def LRUCache.trim {κ ν : Type} (c : LRUCache κ ν) : LRUCache κ ν :=
  if h : c.capacity < c.currentSize ∧ ¬ c.nodeList.isEmpty then
    LRUCache.trim c.evictLRU
  else c
termination_by c.nodeList.length
decreasing_by
  have hne : c.nodeList ≠ [] := by
    intro e
    exact h.2 (by simp [e])
  unfold LRUCache.evictLRU
  rw [if_neg h.2]
  have hpos : 0 < c.nodeList.length := List.length_pos.mpr hne
  simp only [List.length_dropLast]
  omega

/-- `LRUCache::resize` (cache_manager.h lines 170-177): clamp the new
capacity to at least 1, then evict down to it. -/
def LRUCache.resize {κ ν : Type} (c : LRUCache κ ν) (newCapacity : Nat) : LRUCache κ ν :=
  LRUCache.trim { c with capacity := max newCapacity 1 }

/-- The sequences of mutating operations a client can run against an
`LRUCache` (claim C8 quantifies over these). -/
inductive CacheOp (κ ν : Type) where
  | put (key : κ) (value : ν)
  | get (key : κ)
  | remove (key : κ)
  | clear
  | resize (newCapacity : Nat)

/-- Run one operation against the cache state. -/
def applyCacheOp {κ ν : Type} [DecidableEq κ] (c : LRUCache κ ν) :
    CacheOp κ ν → LRUCache κ ν
  | .put key value => c.put key value
  | .get key => (c.get key).2
  | .remove key => (c.remove key).2
  | .clear => c.clear
  | .resize n => c.resize n

/-- Run a sequence of operations against the cache state. -/
def runCacheOps {κ ν : Type} [DecidableEq κ] (c : LRUCache κ ν)
    (ops : List (CacheOp κ ν)) : LRUCache κ ν :=
  ops.foldl applyCacheOp c

/-- The structural invariant of a reachable `LRUCache` state:
`currentSize_` counts the nodes, the size never exceeds the capacity,
and the capacity is at least 1. -/
def LRUCache.SizeInv {κ ν : Type} (c : LRUCache κ ν) : Prop :=
  c.currentSize = c.nodeList.length ∧ c.currentSize ≤ c.capacity ∧ 1 ≤ c.capacity

theorem LRUCache.sizeInv_make {κ ν : Type} (capacity : Nat) :
    (LRUCache.make capacity : LRUCache κ ν).SizeInv := by
  refine ⟨rfl, Nat.zero_le _, ?_⟩
  unfold LRUCache.make
  by_cases h : capacity = 0 <;> simp [h] <;> omega

theorem LRUCache.sizeInv_put {κ ν : Type} [DecidableEq κ] {c : LRUCache κ ν}
    (hc : c.SizeInv) (key : κ) (value : ν) : (c.put key value).SizeInv := by
  obtain ⟨h1, h2, h3⟩ := hc
  unfold LRUCache.put
  by_cases hf : (c.nodeList.find? (fun p => decide (p.1 = key))).isSome
  · rw [if_pos hf]
    obtain ⟨a, ha, hpa⟩ := List.find?_isSome.mp hf
    have hpos : 0 < c.nodeList.length :=
      List.length_pos.mpr (by intro e; rw [e] at ha; simp at ha)
    refine ⟨?_, h2, h3⟩
    show c.currentSize =
      ((key, value) :: List.eraseP (fun p => decide (p.1 = key)) c.nodeList).length
    rw [List.length_cons, List.length_eraseP_of_mem ha hpa]
    omega
  · rw [if_neg hf]
    by_cases hge : c.currentSize ≥ c.capacity
    · rw [if_pos hge]
      have hpos : 0 < c.nodeList.length := by omega
      have hne : ¬ c.nodeList.isEmpty := by
        rw [Bool.not_eq_true, ← Bool.not_eq_true']
        simp [List.isEmpty_iff]
        exact List.length_pos.mp hpos
      have e1 : c.evictLRU.nodeList = c.nodeList.dropLast := by
        simp [LRUCache.evictLRU, hne]
      have e2 : c.evictLRU.currentSize = c.currentSize - 1 := by
        simp [LRUCache.evictLRU, hne]
      have e3 : c.evictLRU.capacity = c.capacity := by
        simp [LRUCache.evictLRU, hne]
      refine ⟨?_, ?_, by show 1 ≤ c.evictLRU.capacity; rw [e3]; exact h3⟩
      · show c.evictLRU.currentSize + 1 = ((key, value) :: c.evictLRU.nodeList).length
        rw [List.length_cons, e1, e2, List.length_dropLast]
        omega
      · show c.evictLRU.currentSize + 1 ≤ c.evictLRU.capacity
        rw [e2, e3]
        omega
    · rw [if_neg hge]
      refine ⟨?_, ?_, h3⟩
      · show c.currentSize + 1 = ((key, value) :: c.nodeList).length
        rw [List.length_cons]
        omega
      · show c.currentSize + 1 ≤ c.capacity
        omega

theorem LRUCache.sizeInv_get {κ ν : Type} [DecidableEq κ] {c : LRUCache κ ν}
    (hc : c.SizeInv) (key : κ) : ((c.get key).2).SizeInv := by
  obtain ⟨h1, h2, h3⟩ := hc
  unfold LRUCache.get
  cases hf : c.nodeList.find? (fun p => decide (p.1 = key)) with
  | none => exact ⟨h1, h2, h3⟩
  | some p =>
    have hmem : p ∈ c.nodeList := List.mem_of_find?_eq_some hf
    have hpp := List.find?_some hf
    have hpos : 0 < c.nodeList.length :=
      List.length_pos.mpr (by intro e; rw [e] at hmem; simp at hmem)
    refine ⟨?_, h2, h3⟩
    show c.currentSize = (p :: List.eraseP _ c.nodeList).length
    rw [List.length_cons, List.length_eraseP_of_mem hmem hpp]
    omega

theorem LRUCache.sizeInv_remove {κ ν : Type} [DecidableEq κ] {c : LRUCache κ ν}
    (hc : c.SizeInv) (key : κ) : ((c.remove key).2).SizeInv := by
  obtain ⟨h1, h2, h3⟩ := hc
  unfold LRUCache.remove
  by_cases hf : (c.nodeList.find? (fun p => decide (p.1 = key))).isSome
  · rw [if_pos hf]
    obtain ⟨a, ha, hpa⟩ := List.find?_isSome.mp hf
    refine ⟨?_, ?_, h3⟩
    · show c.currentSize - 1 =
        (List.eraseP (fun p => decide (p.1 = key)) c.nodeList).length
      rw [List.length_eraseP_of_mem ha hpa]
      omega
    · show c.currentSize - 1 ≤ c.capacity
      omega
  · rw [if_neg hf]
    exact ⟨h1, h2, h3⟩

theorem LRUCache.sizeInv_clear {κ ν : Type} {c : LRUCache κ ν}
    (hc : c.SizeInv) : c.clear.SizeInv :=
  ⟨rfl, Nat.zero_le _, hc.2.2⟩

theorem LRUCache.trim_sizeInv {κ ν : Type} : ∀ (n : Nat) (c : LRUCache κ ν),
    c.nodeList.length ≤ n → c.currentSize = c.nodeList.length → 1 ≤ c.capacity →
    (c.trim.currentSize = c.trim.nodeList.length ∧
     c.trim.currentSize ≤ c.trim.capacity ∧ c.trim.capacity = c.capacity) := by
  intro n
  induction n with
  | zero =>
    intro c hlen hsz hcap
    have hnil : c.nodeList = [] := List.eq_nil_of_length_eq_zero (by omega)
    rw [LRUCache.trim.eq_def, dif_neg (by simp [hnil])]
    exact ⟨hsz, by rw [hsz, hnil]; simp, rfl⟩
  | succ n ih =>
    intro c hlen hsz hcap
    rw [LRUCache.trim.eq_def]
    by_cases h : c.capacity < c.currentSize ∧ ¬ c.nodeList.isEmpty
    · rw [dif_pos h]
      have hne : c.nodeList ≠ [] := fun e => h.2 (by simp [e])
      have hpos : 0 < c.nodeList.length := List.length_pos.mpr hne
      have e1 : c.evictLRU.nodeList = c.nodeList.dropLast := by
        simp [LRUCache.evictLRU, h.2]
      have e2 : c.evictLRU.currentSize = c.currentSize - 1 := by
        simp [LRUCache.evictLRU, h.2]
      have e3 : c.evictLRU.capacity = c.capacity := by
        simp [LRUCache.evictLRU, h.2]
      have := ih c.evictLRU
        (by rw [e1, List.length_dropLast]; omega)
        (by rw [e1, e2, List.length_dropLast]; omega)
        (by rw [e3]; exact hcap)
      exact ⟨this.1, this.2.1, by rw [this.2.2, e3]⟩
    · rw [dif_neg h]
      push_neg at h
      refine ⟨hsz, ?_, rfl⟩
      by_cases hcnd : c.capacity < c.currentSize
      · have hnil : c.nodeList = [] := List.isEmpty_iff.mp (by simpa using h hcnd)
        rw [hsz, hnil]
        simp
      · omega

theorem LRUCache.sizeInv_resize {κ ν : Type} {c : LRUCache κ ν}
    (hc : c.SizeInv) (newCapacity : Nat) : (c.resize newCapacity).SizeInv := by
  obtain ⟨h1, h2, h3⟩ := hc
  unfold LRUCache.resize
  have := LRUCache.trim_sizeInv c.nodeList.length
    { c with capacity := max newCapacity 1 } (le_refl _) h1 (le_max_right _ _)
  exact ⟨this.1, this.2.1, by rw [this.2.2]; exact le_max_right _ _⟩

theorem LRUCache.sizeInv_applyCacheOp {κ ν : Type} [DecidableEq κ] {c : LRUCache κ ν}
    (hc : c.SizeInv) (op : CacheOp κ ν) : (applyCacheOp c op).SizeInv := by
  cases op with
  | put key value => exact LRUCache.sizeInv_put hc key value
  | get key => exact LRUCache.sizeInv_get hc key
  | remove key => exact LRUCache.sizeInv_remove hc key
  | clear => exact LRUCache.sizeInv_clear hc
  | resize n => exact LRUCache.sizeInv_resize hc n

theorem LRUCache.sizeInv_runCacheOps {κ ν : Type} [DecidableEq κ] {c : LRUCache κ ν}
    (hc : c.SizeInv) (ops : List (CacheOp κ ν)) : (runCacheOps c ops).SizeInv := by
  induction ops generalizing c with
  | nil => exact hc
  | cons op ops ih => exact ih (LRUCache.sizeInv_applyCacheOp hc op)

/-- Claim C8: starting from any requested capacity, after any sequence
of `put`/`get`/`remove`/`clear`/`resize` operations the size never
exceeds the capacity and the capacity is at least 1; a requested
capacity of 0 — in the constructor or in `resize` — is coerced to 1. -/
theorem C8_lru_size_le_capacity {κ ν : Type} [DecidableEq κ]
    (capacity : Nat) (ops : List (CacheOp κ ν)) :
    (runCacheOps (LRUCache.make capacity) ops).currentSize ≤
        (runCacheOps (LRUCache.make capacity) ops).capacity ∧
    1 ≤ (runCacheOps (LRUCache.make capacity) ops).capacity ∧
    (LRUCache.make 0 : LRUCache κ ν).capacity = 1 ∧
    ((runCacheOps (LRUCache.make capacity) ops).resize 0).capacity = 1 := by
  have h := LRUCache.sizeInv_runCacheOps (LRUCache.sizeInv_make capacity) ops
  refine ⟨h.2.1, h.2.2, rfl, ?_⟩
  unfold LRUCache.resize
  have := LRUCache.trim_sizeInv
    (runCacheOps (LRUCache.make capacity : LRUCache κ ν) ops).nodeList.length
    { runCacheOps (LRUCache.make capacity : LRUCache κ ν) ops with capacity := max 0 1 }
    (le_refl _) h.1 (le_max_right _ _)
  rw [this.2.2]
  rfl

/-- Claim C4: `put(k, v)` with `k` present replaces the stored value and
splices the entry to the front without changing the size or the eviction
counter; with `k` absent it inserts at the front, first evicting the
least-recently-used (back) entry and incrementing the eviction counter
when the size equals the capacity. The hypotheses are the structural
invariant of reachable states (established in `C8_lru_size_le_capacity`'s
development). -/
theorem C4_put_spec {κ ν : Type} [DecidableEq κ] (c : LRUCache κ ν) (key : κ) (value : ν)
    (hlen : c.currentSize = c.nodeList.length) (hcap : 1 ≤ c.capacity) :
    ((c.nodeList.find? (fun p => decide (p.1 = key))).isSome →
      (c.put key value).nodeList =
          (key, value) :: c.nodeList.eraseP (fun p => decide (p.1 = key)) ∧
        (c.put key value).currentSize = c.currentSize ∧
        (c.put key value).evictionCount = c.evictionCount) ∧
    (¬ (c.nodeList.find? (fun p => decide (p.1 = key))).isSome →
      (c.currentSize = c.capacity →
        (c.put key value).nodeList = (key, value) :: c.nodeList.dropLast ∧
          (c.put key value).currentSize = c.currentSize ∧
          (c.put key value).evictionCount = c.evictionCount + 1) ∧
      (c.currentSize < c.capacity →
        (c.put key value).nodeList = (key, value) :: c.nodeList ∧
          (c.put key value).currentSize = c.currentSize + 1 ∧
          (c.put key value).evictionCount = c.evictionCount)) := by
  constructor
  · intro hf
    unfold LRUCache.put
    rw [if_pos hf]
    exact ⟨rfl, rfl, rfl⟩
  · intro hf
    constructor
    · intro hfull
      unfold LRUCache.put
      rw [if_neg hf, if_pos (by omega : c.currentSize ≥ c.capacity)]
      have hne : ¬ c.nodeList.isEmpty := by
        intro he
        rw [List.isEmpty_iff.mp he] at hlen
        simp at hlen
        omega
      refine ⟨?_, ?_, ?_⟩
      · show (key, value) :: c.evictLRU.nodeList = (key, value) :: c.nodeList.dropLast
        simp [LRUCache.evictLRU, hne]
      · show c.evictLRU.currentSize + 1 = c.currentSize
        have e2 : c.evictLRU.currentSize = c.currentSize - 1 := by
          simp [LRUCache.evictLRU, hne]
        rw [e2]
        omega
      · show c.evictLRU.evictionCount = c.evictionCount + 1
        simp [LRUCache.evictLRU, hne]
    · intro hlt
      unfold LRUCache.put
      rw [if_neg hf, if_neg (by omega : ¬ c.currentSize ≥ c.capacity)]
      exact ⟨rfl, rfl, rfl⟩

/-- A full two-entry cache used to instantiate C4 concretely. -/
def sampleCache : LRUCache Nat Nat :=
  { nodeList := [(1, 10), (2, 20)], capacity := 2, currentSize := 2 }

/-- Concrete instance of C4: putting the absent key 3 into the full
`sampleCache` evicts the back entry `(2, 20)`, keeps the size at 2 and
counts one eviction. -/
theorem C4_put_spec_witness :
    (sampleCache.currentSize = sampleCache.nodeList.length ∧
      1 ≤ sampleCache.capacity) ∧
    (((sampleCache.nodeList.find? (fun p => decide (p.1 = 3))).isSome →
      (sampleCache.put 3 30).nodeList =
          (3, 30) :: sampleCache.nodeList.eraseP (fun p => decide (p.1 = 3)) ∧
        (sampleCache.put 3 30).currentSize = sampleCache.currentSize ∧
        (sampleCache.put 3 30).evictionCount = sampleCache.evictionCount) ∧
    (¬ (sampleCache.nodeList.find? (fun p => decide (p.1 = 3))).isSome →
      (sampleCache.currentSize = sampleCache.capacity →
        (sampleCache.put 3 30).nodeList = (3, 30) :: sampleCache.nodeList.dropLast ∧
          (sampleCache.put 3 30).currentSize = sampleCache.currentSize ∧
          (sampleCache.put 3 30).evictionCount = sampleCache.evictionCount + 1) ∧
      (sampleCache.currentSize < sampleCache.capacity →
        (sampleCache.put 3 30).nodeList = (3, 30) :: sampleCache.nodeList ∧
          (sampleCache.put 3 30).currentSize = sampleCache.currentSize + 1 ∧
          (sampleCache.put 3 30).evictionCount = sampleCache.evictionCount))) :=
  ⟨⟨rfl, by decide⟩, C4_put_spec sampleCache 3 30 rfl (by decide)⟩

/-! ## SearchResults::sortByScore (src/src/core/types.cpp, lines 155-160) -/

/-- `SearchResult` (include/core/types.h lines 118-125): an entry and a
relevance score (`double`, modelled as `ℚ`); the highlight-span vector
is not read by any sorting comparator and is omitted. -/
structure SearchResult where
  entry : FileEntry := {}
  score : ℚ := 0
  deriving DecidableEq, Repr

/-- `SearchResults::sortByScore` (types.cpp lines 155-160): `std::sort`
over the comparator `a.score > b.score`, which compares nothing but the
scores. `std::sort` is modelled by a merge sort over the equivalent
non-strict ordering `b.score ≤ a.score`: any conforming `std::sort`
output is a permutation of the input that is non-increasing in score,
which the model satisfies; the model's stability fixes one of the tie
orders `std::sort` is free to produce. -/
def sortByScore (results : List SearchResult) : List SearchResult :=
  results.mergeSort (fun a b => decide (b.score ≤ a.score))

/-- The ordering claim C3 asserts for sorted results: strictly
descending score, with equal scores ordered by ascending normalized
name and then by ascending id. -/
def scoreNameIdOrdered (l : List SearchResult) : Prop :=
  l.Pairwise (fun a b =>
    b.score < a.score ∨
      (a.score = b.score ∧
        (a.entry.normalizedName < b.entry.normalizedName ∨
          (a.entry.normalizedName = b.entry.normalizedName ∧ a.entry.id ≤ b.entry.id))))

/-- Two equal-score, equal-name results whose ids are out of ascending
order. -/
def tieFirst : SearchResult :=
  { entry := { fileName := "x.txt", normalizedName := "x txt", id := 2 }, score := 1 }

/-- See `tieFirst`. -/
def tieSecond : SearchResult :=
  { entry := { fileName := "x.txt", normalizedName := "x txt", id := 1 }, score := 1 }

/-- Claim C3, counterexample: the comparator reads only the score, so on
two equal-score results with ids 2 and 1 (in that order) the sort
returns them unchanged — id 2 before id 1 — and the output violates the
claimed name/id tie-break order. -/
theorem C3_counterexample :
    sortByScore [tieFirst, tieSecond] = [tieFirst, tieSecond] ∧
    ¬ scoreNameIdOrdered (sortByScore [tieFirst, tieSecond]) := by
  have hsorted : sortByScore [tieFirst, tieSecond] = [tieFirst, tieSecond] :=
    List.mergeSort_of_sorted (by decide)
  refine ⟨hsorted, ?_⟩
  rw [hsorted]
  intro hord
  have hrel := (List.pairwise_cons.mp hord).1 tieSecond (List.mem_cons_self _ _)
  rcases hrel with hlt | ⟨-, hname | ⟨-, hid⟩⟩
  · exact absurd hlt (lt_irrefl _)
  · exact absurd hname (lt_irrefl _)
  · exact absurd hid (by decide)

/-- Claim C3 (amended): the comparator of `sortByScore` compares only
scores, so the output is a permutation of the input in non-increasing
score order; equal-score ties keep the order the sort leaves them in
(input order, in this model) rather than being broken by normalized name
or id; and sorting an already sorted list leaves it unchanged, so
sorting twice yields the identical ordering. -/
theorem C3_sortByScore_sorted (results : List SearchResult) :
    (sortByScore results).Pairwise (fun a b => b.score ≤ a.score) ∧
    (sortByScore results).Perm results ∧
    sortByScore (sortByScore results) = sortByScore results := by
  have htrans : ∀ a b c : SearchResult,
      (fun a b => decide (b.score ≤ a.score)) a b = true →
      (fun a b => decide (b.score ≤ a.score)) b c = true →
      (fun a b => decide (b.score ≤ a.score)) a c = true := by
    intro a b c hab hbc
    simp only [decide_eq_true_eq] at *
    exact le_trans hbc hab
  have htotal : ∀ a b : SearchResult,
      ((fun a b => decide (b.score ≤ a.score)) a b ||
        (fun a b => decide (b.score ≤ a.score)) b a) = true := by
    intro a b
    simp only [Bool.or_eq_true, decide_eq_true_eq]
    exact le_total b.score a.score
  have hsorted := List.sorted_mergeSort htrans htotal results
  exact ⟨hsorted.imp (fun h => of_decide_eq_true h), List.mergeSort_perm _ _,
    List.mergeSort_of_sorted hsorted⟩

/-! ## Crawl directory-entry filtering (src/FastFileSearch.cpp, lines 233-253) -/

/-- `FILE_ATTRIBUTE_HIDDEN` from the Windows headers. -/
def FILE_ATTRIBUTE_HIDDEN : Nat := 2

/-- `FILE_ATTRIBUTE_SYSTEM` from the Windows headers. -/
def FILE_ATTRIBUTE_SYSTEM : Nat := 4

/-- `FILE_ATTRIBUTE_DIRECTORY` from the Windows headers. -/
def FILE_ATTRIBUTE_DIRECTORY : Nat := 16

/-- `findData.dwFileAttributes & mask` tested against zero. -/
def hasAttribute (attributes mask : Nat) : Bool :=
  attributes &&& mask != 0

/-- What the crawl loop does with one directory entry. -/
inductive EntryAction where
  | skipped
  | recursed
  | indexed
  deriving DecidableEq, Repr

/-- The body of the enumeration loop of
`FastFileSearchEngine::IndexDirectoryOptimized` (FastFileSearch.cpp
lines 233-276): skip `.` and `..`; recurse into a directory only when it
is neither system nor hidden and its leaf name is none of the six
hard-coded system roots; index every non-directory entry. -/
def indexDirectoryStep (attributes : Nat) (fileName : String) : EntryAction :=
  if fileName = "." ∨ fileName = ".." then .skipped
  else if hasAttribute attributes FILE_ATTRIBUTE_DIRECTORY then
    if ¬ hasAttribute attributes FILE_ATTRIBUTE_SYSTEM ∧
        ¬ hasAttribute attributes FILE_ATTRIBUTE_HIDDEN ∧
        fileName ≠ "System Volume Information" ∧
        fileName ≠ "$Recycle.Bin" ∧
        fileName ≠ "Windows" ∧
        fileName ≠ "Program Files" ∧
        fileName ≠ "Program Files (x86)" ∧
        fileName ≠ "ProgramData" then .recursed
    else .skipped
  else .indexed

/-- Claim C6: `.` and `..` are always skipped, and a subdirectory is
recursed into exactly when its attributes mark it neither system nor
hidden and its leaf name is none of Windows, Program Files,
Program Files (x86), ProgramData, System Volume Information,
$Recycle.Bin. -/
theorem C6_entry_filter (attributes : Nat) (fileName : String) :
    (fileName = "." ∨ fileName = ".." →
      indexDirectoryStep attributes fileName = .skipped) ∧
    (indexDirectoryStep attributes fileName = .recursed ↔
      fileName ≠ "." ∧ fileName ≠ ".." ∧
      hasAttribute attributes FILE_ATTRIBUTE_DIRECTORY = true ∧
      hasAttribute attributes FILE_ATTRIBUTE_SYSTEM = false ∧
      hasAttribute attributes FILE_ATTRIBUTE_HIDDEN = false ∧
      fileName ∉ ["Windows", "Program Files", "Program Files (x86)", "ProgramData",
        "System Volume Information", "$Recycle.Bin"]) := by
  constructor
  · intro h
    unfold indexDirectoryStep
    rw [if_pos h]
  · unfold indexDirectoryStep
    split_ifs with h1 h2 h3
    · refine iff_of_false (by decide) ?_
      rintro ⟨hd, hdd, -⟩
      rcases h1 with h | h
      · exact hd h
      · exact hdd h
    · refine iff_of_true rfl ?_
      push_neg at h1
      obtain ⟨hs, hh, n1, n2, n3, n4, n5, n6⟩ := h3
      refine ⟨h1.1, h1.2, h2, by simpa using hs, by simpa using hh, ?_⟩
      simp only [List.mem_cons, List.not_mem_nil, or_false]
      push_neg
      exact ⟨n3, n4, n5, n6, n1, n2⟩
    · refine iff_of_false (by decide) ?_
      rintro ⟨-, -, -, hs, hh, hmem⟩
      apply h3
      refine ⟨by simp [hs], by simp [hh], ?_, ?_, ?_, ?_, ?_, ?_⟩ <;>
        first
        | exact fun e => hmem (by rw [e]; decide)
    · refine iff_of_false (by decide) ?_
      rintro ⟨-, -, hdir, -⟩
      exact h2 hdir

/-- Concrete instance of C6 at the directory attributes (16) and the
leaf name `Windows`: the recursion test comes out false. -/
theorem C6_entry_filter_witness :
    (("Windows" : String) = "." ∨ ("Windows" : String) = ".." →
      indexDirectoryStep 16 "Windows" = .skipped) ∧
    (indexDirectoryStep 16 "Windows" = .recursed ↔
      ("Windows" : String) ≠ "." ∧ ("Windows" : String) ≠ ".." ∧
      hasAttribute 16 FILE_ATTRIBUTE_DIRECTORY = true ∧
      hasAttribute 16 FILE_ATTRIBUTE_SYSTEM = false ∧
      hasAttribute 16 FILE_ATTRIBUTE_HIDDEN = false ∧
      ("Windows" : String) ∉ ["Windows", "Program Files", "Program Files (x86)",
        "ProgramData", "System Volume Information", "$Recycle.Bin"]) :=
  C6_entry_filter 16 "Windows"

/-! ## SearchInstant (src/FastFileSearch.cpp, lines 70-92) -/

/-- `FastFileSearchEngine::FileInfo` (FastFileSearch.cpp lines 32-37). -/
structure FileInfo where
  path : String := ""
  name : String := ""
  lowerName : String := ""
  size : Nat := 0
  deriving DecidableEq, Repr

/-- `hay.find(needle) != std::string::npos`: the needle occurs in the
hay as a contiguous substring. -/
def containsSubstr (hay needle : String) : Bool :=
  decide (needle.toList <:+: hay.toList)

/-- The scan loop of `FastFileSearchEngine::SearchInstant`
(FastFileSearch.cpp lines 83-88): walk the index, collect the paths of
files whose lowercased name contains the lowercased query, and stop as
soon as 100 results have been collected. -/
def searchInstantLoop : List FileInfo → String → List String → List String
  | [], _, results => results
  | f :: rest, lowerQuery, results =>
    if containsSubstr f.lowerName lowerQuery then
      if 100 ≤ (results ++ [f.path]).length then results ++ [f.path]
      else searchInstantLoop rest lowerQuery (results ++ [f.path])
    else searchInstantLoop rest lowerQuery results

/-- `FastFileSearchEngine::SearchInstant` (FastFileSearch.cpp lines
70-92): an empty query returns no results before the index is read;
otherwise the query is lowercased and the index scanned. -/
def SearchInstant (fileIndex : List FileInfo) (query : String) : List String :=
  if query = "" then []
  else searchInstantLoop fileIndex (lowerString query) []

theorem searchInstantLoop_length_le :
    ∀ (files : List FileInfo) (lowerQuery : String) (results : List String),
    results.length < 100 → (searchInstantLoop files lowerQuery results).length ≤ 100 := by
  intro files
  induction files with
  | nil =>
    intro q r h
    simpa [searchInstantLoop] using le_of_lt h
  | cons f rest ih =>
    intro q r h
    unfold searchInstantLoop
    by_cases hm : containsSubstr f.lowerName q = true
    · rw [if_pos hm]
      by_cases hfull : 100 ≤ (r ++ [f.path]).length
      · rw [if_pos hfull]
        simp only [List.length_append, List.length_cons, List.length_nil]
        omega
      · rw [if_neg hfull]
        refine ih q (r ++ [f.path]) ?_
        simp only [List.length_append, List.length_cons, List.length_nil] at hfull ⊢
        omega
    · rw [if_neg hm]
      exact ih q r h

/-- Claim C10: for every index and every query, `SearchInstant` returns
at most 100 result paths, and for the empty query it returns the empty
list without scanning the index (the result is `[]` uniformly in the
index). -/
theorem C10_searchInstant_bounded (fileIndex : List FileInfo) (query : String) :
    (SearchInstant fileIndex query).length ≤ 100 ∧
    SearchInstant fileIndex "" = [] := by
  constructor
  · unfold SearchInstant
    by_cases h : query = ""
    · rw [if_pos h]
      simp
    · rw [if_neg h]
      exact searchInstantLoop_length_le fileIndex (lowerString query) [] (by simp)
  · rfl

end FastFileSearch
